import Mathlib

/-
Verification of the ban-words dictionary/matcher engine (src/src/index.ts).

The file contains three near-identical plugin variants separated by markers:
  variant 1 : lines 1-164   (module-level snapshot, loadDict, collectMatches, isHit)
  variant 2 : lines 165-317
  variant 3 : lines 318-529 (normalizeLine, buildMatchers, testHit, loadDict with
              reset-to-empty error handling)

Strings are modelled as `List Char`.  JavaScript regular expressions are
modelled by a small abstract-syntax tree `Reg` together with a Brzozowski
derivative matcher; the modelled syntax subset covers literal characters,
escaped characters (an escape matches the escaped character literally),
`.`, grouping `( )`, alternation, and the quantifiers `*` `+` `?`.
Character classes `[...]` are outside the modelled subset and are treated
as a compile error.  Case-insensitive matching (`i` flag) is modelled by
folding both pattern and text through `Char.toLower`, which agrees with the
JavaScript semantics on the ASCII range used throughout.
-/

namespace BanWords

/-- JavaScript `String.prototype.trim`, over the whitespace characters
recognised by `Char.isWhitespace` (space, tab, CR, LF — sufficient for all
dictionary contents considered here). -/
def trimChars (cs : List Char) : List Char :=
  ((cs.dropWhile Char.isWhitespace).reverse.dropWhile Char.isWhitespace).reverse

/-- JavaScript `content.split(/\r?\n/)`: split into lines at LF or CRLF. -/
def splitLines : List Char → List (List Char)
  | [] => [[]]
  | '\r' :: '\n' :: rest => [] :: splitLines rest
  | '\n' :: rest => [] :: splitLines rest
  | c :: rest =>
    match splitLines rest with
    | [] => [[c]]
    | l :: ls => (c :: l) :: ls

/-- JavaScript `line.lastIndexOf(c)` (as `none` instead of `-1`). -/
def lastIdx (c : Char) : List Char → Option Nat
  | [] => none
  | a :: rest =>
    match lastIdx c rest with
    | some i => some (i + 1)
    | none => if a == c then some 0 else none

/-- JavaScript `text.includes(w)`: `w` occurs as a contiguous substring. -/
def containsSub (w : List Char) : List Char → Bool
  | [] => w.isEmpty
  | c :: rest => w.isPrefixOf (c :: rest) || containsSub w rest

/-- Regular-expression abstract syntax (the modelled subset of JavaScript
regular expressions). -/
inductive Reg where
  | emp : Reg
  | eps : Reg
  | chr : Char → Reg
  | dot : Reg
  | alt : Reg → Reg → Reg
  | cat : Reg → Reg → Reg
  | star : Reg → Reg
deriving DecidableEq

/-- Does the regular expression accept the empty word. -/
def Reg.nullable : Reg → Bool
  | .emp => false
  | .eps => true
  | .chr _ => false
  | .dot => false
  | .alt r s => r.nullable || s.nullable
  | .cat r s => r.nullable && s.nullable
  | .star _ => true

/-- Brzozowski derivative with respect to one character. -/
def Reg.deriv : Reg → Char → Reg
  | .emp, _ => .emp
  | .eps, _ => .emp
  | .chr c, a => if a == c then .eps else .emp
  | .dot, _ => .eps
  | .alt r s, a => .alt (r.deriv a) (s.deriv a)
  | .cat r s, a =>
    if r.nullable then .alt (.cat (r.deriv a) s) (s.deriv a)
    else .cat (r.deriv a) s
  | .star r, a => .cat (r.deriv a) (.star r)

/-- Does the regular expression match some prefix of the word. -/
def Reg.matchHere : Reg → List Char → Bool
  | r, [] => r.nullable
  | r, c :: cs => r.nullable || (r.deriv c).matchHere cs

/-- JavaScript `RegExp.prototype.test`: does the expression match a
substring starting anywhere in the word (unanchored search). -/
def Reg.search (r : Reg) : List Char → Bool
  | [] => r.nullable
  | c :: cs => r.matchHere (c :: cs) || r.search cs

/-- Apply a character transformation to every literal character of the
expression (used to model the case-insensitive flag). -/
def Reg.mapChars (f : Char → Char) : Reg → Reg
  | .emp => .emp
  | .eps => .eps
  | .chr c => .chr (f c)
  | .dot => .dot
  | .alt r s => .alt (r.mapChars f) (s.mapChars f)
  | .cat r s => .cat (r.mapChars f) (s.mapChars f)
  | .star r => .star (r.mapChars f)

/-- Grammar level for the fueled recursive-descent reader of regex source
text: alternation, concatenation, quantified piece, atom. -/
inductive PMode where
  | palt | pcat | ppiece | patom
deriving DecidableEq

/-- Fueled recursive-descent reader for the modelled JavaScript regex
subset.  It rejects exactly the sources `new RegExp` would reject within
the subset: unbalanced `(` or `)`, a quantifier with nothing to repeat, a
trailing backslash; character classes `[` are outside the subset and
rejected. -/
def parseR : Nat → PMode → List Char → Except Unit (Reg × List Char)
  | 0, _, _ => .error ()
  | fuel + 1, .palt, input => do
    let (r, rest) ← parseR fuel .pcat input
    match rest with
    | '|' :: rest2 => do
      let (s, rest3) ← parseR fuel .palt rest2
      .ok (.alt r s, rest3)
    | _ => .ok (r, rest)
  | fuel + 1, .pcat, input =>
    if input = [] ∨ input.head? = some '|' ∨ input.head? = some ')' then
      .ok (.eps, input)
    else do
      let (r, rest) ← parseR fuel .ppiece input
      let (s, rest2) ← parseR fuel .pcat rest
      .ok (.cat r s, rest2)
  | fuel + 1, .ppiece, input => do
    let (a, rest) ← parseR fuel .patom input
    match rest with
    | '*' :: rest2 => .ok (.star a, rest2)
    | '+' :: rest2 => .ok (.cat a (.star a), rest2)
    | '?' :: rest2 => .ok (.alt a .eps, rest2)
    | _ => .ok (a, rest)
  | fuel + 1, .patom, input =>
    match input with
    | [] => .error ()
    | '(' :: rest => do
      let (r, rest2) ← parseR fuel .palt rest
      match rest2 with
      | ')' :: rest3 => .ok (r, rest3)
      | _ => .error ()
    | ')' :: _ => .error ()
    | '|' :: _ => .error ()
    | '*' :: _ => .error ()
    | '+' :: _ => .error ()
    | '?' :: _ => .error ()
    | '[' :: _ => .error ()
    | '\\' :: c :: rest => .ok (.chr c, rest)
    | '\\' :: [] => .error ()
    | '.' :: rest => .ok (.dot, rest)
    | c :: rest => .ok (.chr c, rest)

/-- Read a whole regex source string; the entire input must be consumed.
Models the success/failure behaviour of `new RegExp(body, flags)` on the
modelled subset. -/
def parseRegex (src : List Char) : Except Unit Reg := do
  let (r, rest) ← parseR (2 * src.length + 8) .palt src
  if rest.isEmpty then .ok r else .error ()

/-- A compiled JavaScript `RegExp`: its source text, its flags string, and
the compiled abstract syntax tree. -/
structure CompiledRegex where
  source : List Char
  flags : List Char
  ast : Reg
deriving DecidableEq

/-- `RegExp.prototype.test` for a compiled expression: with the `i` flag
both pattern and text are case-folded first. -/
def CompiledRegex.test (r : CompiledRegex) (text : List Char) : Bool :=
  if r.flags.contains 'i' then
    (r.ast.mapChars Char.toLower).search (text.map Char.toLower)
  else
    r.ast.search text

/-- Model of `new RegExp(body, flags)`: validate the body, produce the
compiled form, or fail as the constructor would throw. -/
def compileRegex (body flags : List Char) : Except Unit CompiledRegex :=
  (parseRegex body).map fun ast => ⟨body, flags, ast⟩

/-- One compiled literal batch (source lines 65-72 and 377-389): a group
of plain terms compiled into the single alternation pattern
`(e1|e2|...)` of the escaped terms, with the `i` flag when case folding is
on.  Because every term is escaped by `escapeRegExp`, the compiled
alternation matches a text exactly when some term of the batch occurs in
the text as a (case-insensitive, under the `i` flag) substring; `test`
embeds that semantics directly. -/
structure LitBatch where
  terms : List (List Char)
  ignoreCase : Bool
deriving DecidableEq

/-- Semantics of `batchPattern.test(text)` for a compiled literal batch. -/
def LitBatch.test (b : LitBatch) (text : List Char) : Bool :=
  b.terms.any fun w =>
    if b.ignoreCase then containsSub (w.map Char.toLower) (text.map Char.toLower)
    else containsSub w text

/-- Outcome of classifying one dictionary line (variant 1 parse loop,
source lines 48-63). -/
inductive LineOut where
  | skip : LineOut
  | plain : List Char → LineOut
  | regexSrc : List Char → List Char → List Char → LineOut
deriving DecidableEq

/-- Line classification of variant 1 (source lines 48-63): trim; blank or
`#`-prefixed lines are skipped; a line starting with `/` whose last `/` is
at a positive index is split into body and flags (an empty flags segment
falls back to `i`); anything else is a plain term.  `regexSrc` carries the
trimmed line (used verbatim in the warning on compile failure), the body,
and the flags. -/
def parseLine1 (raw : List Char) : LineOut :=
  let line := trimChars raw
  if line.isEmpty then .skip
  else if line.head? == some '#' then .skip
  else if line.head? == some '/' then
    match lastIdx '/' line with
    | some k =>
      if 0 < k then
        .regexSrc line ((line.drop 1).take (k - 1))
          (if (line.drop (k + 1)).isEmpty then ['i'] else line.drop (k + 1))
      else .plain line
    | none => .plain line
  else .plain line

/-- The accumulation loop of variant 1 `loadDict` (source lines 45-63):
returns the plain terms, the compiled regex terms, and the warned-about
invalid regex lines, each in file order. -/
def scanLines1 : List (List Char) → List (List Char) × List CompiledRegex × List (List Char)
  | [] => ([], [], [])
  | raw :: rest =>
    let r := scanLines1 rest
    match parseLine1 raw with
    | .skip => r
    | .plain w => (w :: r.1, r.2.1, r.2.2)
    | .regexSrc line body flags =>
      match compileRegex body flags with
      | .ok cr => (r.1, cr :: r.2.1, r.2.2)
      | .error _ => (r.1, r.2.1, line :: r.2.2)

/-- Fueled worker for `chunk`: each step emits `l.take n` and recurses on
`l.drop n`, exactly the stride-`n` slicing loops at source lines 67-72 and
380-387. -/
def chunkAux (fuel n : Nat) (l : List α) : List (List α) :=
  match fuel with
  | 0 => []
  | fuel + 1 =>
    if l.isEmpty || n == 0 then [] else l.take n :: chunkAux fuel n (l.drop n)

/-- Contiguous chunks of at most `n` elements, in order (the stride-`n`
slicing loops at source lines 67-72 and 380-387).  For `n = 0` the source
loop would not terminate; the model returns `[]` in that never-exercised
case to stay total.  The fuel `l.length` is sufficient because every step
with `n ≥ 1` on a non-empty list drops at least one element. -/
def chunk (n : Nat) (l : List α) : List (List α) :=
  chunkAux l.length n l

/-- Variant 1 compiled snapshot: the module-level state `plainTerms`,
`regexTerms`, `regexBatches` (source lines 32-34) together with the
warnings emitted while loading. -/
structure Snapshot where
  plainTerms : List (List Char)
  regexTerms : List CompiledRegex
  regexBatches : List LitBatch
  warnings : List (List Char)
deriving DecidableEq

/-- Variant 1 `loadDict` (source lines 40-82), as a pure function of the
file content: split into lines, classify and compile each line, slice the
plain terms into batches of 400 and compile each non-empty slice into one
case-insensitive alternation pattern. -/
def loadDict1 (content : List Char) : Snapshot :=
  let scanned := scanLines1 (splitLines content)
  let batches := (chunk 400 scanned.1).filterMap fun s =>
    if s.isEmpty then none else some (⟨s, true⟩ : LitBatch)
  ⟨scanned.1, scanned.2.1, batches, scanned.2.2⟩

/-- Variant 1 `loadDict` with its timing side channel: `t0` and `t1` model
the two `Date.now()` calls; they feed only the log line (term count, batch
count, elapsed milliseconds), never the snapshot. -/
def loadDict1Timed (content : List Char) (t0 t1 : Nat) : Snapshot × Nat × Nat × Nat :=
  let s := loadDict1 content
  (s, s.plainTerms.length, s.regexBatches.length, t1 - t0)

/-- Variant 1 `collectMatches` (source lines 84-93): every truthy plain
term contained in the text, then a `/source/flags` label for every regex
term matching the text. -/
def collectMatches (s : Snapshot) (text : List Char) : List (List Char) :=
  (s.plainTerms.filter fun w => !w.isEmpty && containsSub w text)
    ++ ((s.regexTerms.filter fun r => r.test text).map fun r =>
        '/' :: r.source ++ '/' :: r.flags)

/-- Variant 1 `isHit` (source lines 95-99): true as soon as some batch
pattern or some regex term matches. -/
def isHit (s : Snapshot) (text : List Char) : Bool :=
  (s.regexBatches.any fun re => re.test text) || (s.regexTerms.any fun r => r.test text)

/-- The effective cap on reported matches in the variant 1 middleware
(source line 150): `Math.max(1, config.maxLogMatches || 50)`. -/
def effCap (maxLogMatches : Nat) : Nat :=
  max 1 (if maxLogMatches == 0 then 50 else maxLogMatches)

/-- The reported (possibly truncated) match list of the variant 1
middleware (source line 150): `matched.slice(0, effCap)`. -/
def shownMatches (s : Snapshot) (text : List Char) (maxLogMatches : Nat) : List (List Char) :=
  (collectMatches s text).take (effCap maxLogMatches)

/-- Variant 3 `normalizeLine` inner loop (source lines 362-369): cut the
line at the first unescaped `#`.  The boolean argument is the running
`escaped` flag. -/
def cutHash : Bool → List Char → List Char
  | _, [] => []
  | true, c :: rest => c :: cutHash false rest
  | false, '\\' :: rest => '\\' :: cutHash true rest
  | false, '#' :: _ => []
  | false, c :: rest => c :: cutHash false rest

/-- JavaScript `line.replace(/^﻿/, '')`: drop one leading
byte-order mark. -/
def stripBOM : List Char → List Char
  | '﻿' :: rest => rest
  | l => l

/-- Variant 3 `normalizeLine` (source lines 358-371): strip a leading
byte-order mark, trim, drop an unescaped trailing `#` comment, trim
again. -/
def normalizeLine (line : List Char) : List Char :=
  let line2 := trimChars (stripBOM line)
  if line2.isEmpty then [] else trimChars (cutHash false line2)

/-- Variant 3 `buildMatchers` (source lines 377-389): slice the lines into
chunks of `batchSize`, drop empty strings inside each chunk, skip a chunk
with no parts, and compile each remaining chunk into one alternation
pattern with the case flag.  The batch composition (`terms`) is faithful
in both modes; the `LitBatch.test` semantics is that of the compiled
pattern in literal mode (`asRegex = false`, every part escaped by
`escapeReg`), the only mode exercised by the claims. -/
def buildMatchers (lines : List (List Char)) (asRegex ignoreCase : Bool) (batchSize : Nat) :
    List LitBatch :=
  (chunk batchSize lines).filterMap fun c =>
    let parts := c.filter fun s => !s.isEmpty
    if parts.isEmpty then none else some ⟨parts, ignoreCase⟩

/-- Variant 3 `testHit` (source lines 404-408): false on empty text,
otherwise true when some compiled pattern matches. -/
def testHit (text : List Char) (regs : List LitBatch) : Bool :=
  if text.isEmpty then false else regs.any fun r => r.test text

/-- Variant 3 configuration fields consumed by `loadDict` (source lines
342-356). -/
structure Config3 where
  useRegex : Bool
  ignoreCase : Bool
  batchSize : Nat
deriving DecidableEq

/-- Variant 3 mutable matcher state (source lines 439-440): the compiled
patterns and the loaded line count. -/
structure State3 where
  regs : List LitBatch
  loadedCount : Nat
deriving DecidableEq

/-- Outcome of one attempt to read the dictionary file. -/
inductive ReadResult where
  | missing : ReadResult
  | failure : ReadResult
  | ok : List Char → ReadResult
deriving DecidableEq

/-- Variant 3 `loadDict` (source lines 443-462) as a state transition: a
missing file resets the state to empty (lines 446-451); a read or build
error is caught and also resets the state to empty (lines 457-461); a
successful read normalizes and filters the lines and rebuilds the
patterns. -/
def loadDict3 (cfg : Config3) (st : State3) (r : ReadResult) : State3 :=
  match r with
  | .missing => ⟨[], 0⟩
  | .failure => ⟨[], 0⟩
  | .ok content =>
    let lines := ((splitLines content).map normalizeLine).filter fun l => !l.isEmpty
    ⟨buildMatchers lines cfg.useRegex cfg.ignoreCase cfg.batchSize, lines.length⟩

/-- Variant 1 reload as performed by the file watcher (source lines
122-131): `loadDict` rethrows any read failure before the module state is
assigned (the three assignments at lines 74-76 come after the read at line
42), and the watcher catches the exception, so a failed reload leaves the
previous snapshot in place. -/
def reload1 (st : Snapshot) (r : ReadResult) : Snapshot :=
  match r with
  | .missing => st
  | .failure => st
  | .ok content => loadDict1 content

/-- JavaScript `text.includes(w)` agrees with list infix occurrence. -/
theorem containsSub_iff (w t : List Char) : containsSub w t = true ↔ w <:+: t := by
  induction t with
  | nil => simp [containsSub, List.isEmpty_iff]
  | cons c rest ih =>
    simp [containsSub, List.infix_cons_iff, ih]

/-- Chunking the empty list yields no chunks. -/
theorem chunkAux_nil (fuel n : Nat) : chunkAux fuel n ([] : List α) = [] := by
  cases fuel <;> simp [chunkAux]

/-- With sufficient fuel and a positive chunk size, the chunks concatenate
back to the original list. -/
theorem chunkAux_flatten (n : Nat) (hn : 0 < n) :
    ∀ (fuel : Nat) (l : List α), l.length ≤ fuel → (chunkAux fuel n l).flatten = l := by
  intro fuel
  induction fuel with
  | zero =>
    intro l hl
    have : l = [] := List.eq_nil_of_length_eq_zero (Nat.le_zero.mp hl)
    simp [this, chunkAux]
  | succ fuel ih =>
    intro l hl
    rw [chunkAux]
    by_cases he : l.isEmpty
    · simp [he, List.isEmpty_iff.mp he]
    · have hcond : ¬(l.isEmpty || (n == 0)) = true := by simp [he]; omega
      rw [if_neg hcond, List.flatten_cons, ih (l.drop n) ?_, List.take_append_drop]
      have hpos : 0 < l.length := by
        cases l with
        | nil => simp at he
        | cons a as => simp
      simp only [List.length_drop]
      omega

/-- The chunks of a list concatenate back to the list. -/
theorem chunk_flatten (n : Nat) (hn : 0 < n) (l : List α) : (chunk n l).flatten = l :=
  chunkAux_flatten n hn l.length l (Nat.le_refl _)

/-- Every chunk has at most `n` elements and is non-empty. -/
theorem chunkAux_mem (n : Nat) :
    ∀ (fuel : Nat) (l b : List α), b ∈ chunkAux fuel n l → b.length ≤ n ∧ b ≠ [] := by
  intro fuel
  induction fuel with
  | zero => intro l b hb; simp [chunkAux] at hb
  | succ fuel ih =>
    intro l b hb
    rw [chunkAux] at hb
    split at hb
    · simp at hb
    next hcond =>
      rcases List.mem_cons.mp hb with rfl | hb2
      · constructor
        · simp
        · rw [Ne, List.take_eq_nil_iff]
          simp only [Bool.or_eq_true, List.isEmpty_iff, beq_iff_eq] at hcond
          push_neg at hcond
          rintro (h0 | hnil)
          · exact hcond.2 h0
          · exact hcond.1 hnil
      · exact ih _ b hb2

/-- Chunk size 1 produces one singleton chunk per element. -/
theorem chunkAux_one :
    ∀ (fuel : Nat) (l : List α), l.length ≤ fuel →
      chunkAux fuel 1 l = l.map fun a => [a] := by
  intro fuel
  induction fuel with
  | zero =>
    intro l hl
    have : l = [] := List.eq_nil_of_length_eq_zero (Nat.le_zero.mp hl)
    simp [this, chunkAux]
  | succ fuel ih =>
    intro l hl
    cases l with
    | nil => simp [chunkAux]
    | cons a rest =>
      rw [chunkAux]
      simp only [List.isEmpty_cons, Bool.false_or]
      rw [if_neg (by simp)]
      simp only [List.take_succ_cons, List.take_zero, List.drop_succ_cons, List.drop_zero,
        List.map_cons]
      rw [ih rest (by simpa using Nat.le_of_succ_le_succ hl)]

/-- A non-empty list no longer than the chunk size forms a single chunk. -/
theorem chunkAux_single (fuel n : Nat) (l : List α) (hne : l ≠ []) (hlen : l.length ≤ n)
    (hfuel : 0 < fuel) : chunkAux fuel n l = [l] := by
  cases fuel with
  | zero => omega
  | succ fuel =>
    rw [chunkAux]
    have h0 : 0 < n := by
      have : 0 < l.length := List.length_pos.mpr hne
      omega
    rw [if_neg (by simp [List.isEmpty_iff, hne]; omega)]
    rw [List.take_of_length_le hlen, List.drop_eq_nil_of_le hlen, chunkAux_nil]

/-- A `filterMap` that succeeds on every member is a `map`. -/
theorem filterMap_eq_map_of_some (l : List α) (g : α → Option β) (f : α → β)
    (h : ∀ a ∈ l, g a = some (f a)) : l.filterMap g = l.map f := by
  induction l with
  | nil => rfl
  | cons a rest ih =>
    rw [List.filterMap_cons, h a (List.mem_cons_self a rest), List.map_cons,
      ih fun b hb => h b (List.mem_cons_of_mem a hb)]

/-- The compiled batches of a variant 1 snapshot are the 400-element
chunks of its plain terms. -/
theorem loadDict1_batches (c : List Char) :
    (loadDict1 c).regexBatches = (chunk 400 (loadDict1 c).plainTerms).filterMap
      (fun s => if s.isEmpty then none else some (⟨s, true⟩ : LitBatch)) := rfl

/-- A line classified as a plain term is never the empty string. -/
theorem parseLine1_plain_ne {raw w : List Char} (h : parseLine1 raw = .plain w) : w ≠ [] := by
  simp only [parseLine1] at h
  split at h
  · exact absurd h (by simp)
  next hne =>
    have hgoal : w = trimChars raw → w ≠ [] := by
      rintro rfl hnil
      rw [hnil] at hne
      simp at hne
    split at h
    · exact absurd h (by simp)
    · split at h
      · split at h
        · split at h
          · exact absurd h (by simp)
          · injection h with h2; exact hgoal h2.symm
        · injection h with h2; exact hgoal h2.symm
      · injection h with h2; exact hgoal h2.symm

/-- Every accumulated plain term is a non-empty string. -/
theorem scanLines1_plain_ne :
    ∀ (ls : List (List Char)) (w : List Char), w ∈ (scanLines1 ls).1 → w ≠ [] := by
  intro ls
  induction ls with
  | nil => intro w hw; simp [scanLines1] at hw
  | cons raw rest ih =>
    intro w hw
    simp only [scanLines1] at hw
    cases hpl : parseLine1 raw with
    | skip => rw [hpl] at hw; exact ih w hw
    | plain v =>
      rw [hpl] at hw
      rcases List.mem_cons.mp hw with rfl | hw2
      · exact parseLine1_plain_ne hpl
      · exact ih w hw2
    | regexSrc line body flags =>
      rw [hpl] at hw
      have hw2 : w ∈ (scanLines1 rest).1 := by
        cases hcr : compileRegex body flags with
        | ok cr => simpa [hcr] using hw
        | error e => simpa [hcr] using hw
      exact ih w hw2

/-- Every plain term of a loaded variant 1 snapshot is non-empty. -/
theorem loadDict1_plain_ne {c w : List Char} (hw : w ∈ (loadDict1 c).plainTerms) : w ≠ [] :=
  scanLines1_plain_ne (splitLines c) w hw

/-- Every plain term of a variant 1 snapshot lies in one of its compiled
case-insensitive batches. -/
theorem mem_batch_of_mem_plain {c w : List Char} (hw : w ∈ (loadDict1 c).plainTerms) :
    ∃ b ∈ (loadDict1 c).regexBatches, w ∈ b.terms ∧ b.ignoreCase = true := by
  have hj : (chunk 400 (loadDict1 c).plainTerms).flatten = (loadDict1 c).plainTerms :=
    chunk_flatten 400 (by omega) _
  rw [← hj] at hw
  rcases List.mem_flatten.mp hw with ⟨ch, hch, hwch⟩
  refine ⟨⟨ch, true⟩, ?_, hwch, rfl⟩
  rw [loadDict1_batches]
  apply List.mem_filterMap.mpr
  refine ⟨ch, hch, ?_⟩
  have hchne : ¬ch.isEmpty = true := by
    rw [List.isEmpty_iff]
    rintro rfl
    simp at hwch
  simp [hchne]

/-- Membership in a batch of a variant 1 snapshot implies membership among
the plain terms. -/
theorem mem_plain_of_mem_batch {c w : List Char} {b : LitBatch}
    (hb : b ∈ (loadDict1 c).regexBatches) (hw : w ∈ b.terms) :
    w ∈ (loadDict1 c).plainTerms ∧ b.ignoreCase = true := by
  rw [loadDict1_batches] at hb
  rcases List.mem_filterMap.mp hb with ⟨ch, hch, hfb⟩
  split at hfb
  · exact absurd hfb (by simp)
  · have hb2 : b = ⟨ch, true⟩ := by injection hfb with h2; exact h2.symm
    subst hb2
    refine ⟨?_, rfl⟩
    have hj : (chunk 400 (loadDict1 c).plainTerms).flatten = (loadDict1 c).plainTerms :=
      chunk_flatten 400 (by omega) _
    rw [← hj]
    exact List.mem_flatten.mpr ⟨ch, hch, hw⟩

/-- An infix occurrence survives mapping both sides. -/
theorem infix_map_toLower {w t : List Char} (h : w <:+: t) :
    w.map Char.toLower <:+: t.map Char.toLower :=
  List.IsInfix.map Char.toLower h

/-- Every element of every chunk comes from the chunked list. -/
theorem chunkAux_subset (n : Nat) :
    ∀ (fuel : Nat) (l b : List α), b ∈ chunkAux fuel n l → ∀ a ∈ b, a ∈ l := by
  intro fuel
  induction fuel with
  | zero => intro l b hb; simp [chunkAux] at hb
  | succ fuel ih =>
    intro l b hb a ha
    rw [chunkAux] at hb
    split at hb
    · simp at hb
    · rcases List.mem_cons.mp hb with rfl | hb2
      · exact List.take_subset n l ha
      · exact List.drop_subset n l (ih (l.drop n) b hb2 a ha)

/-- On non-empty terms, `buildMatchers` keeps every chunk whole: it is the
chunk list itself, each chunk tagged with the case flag. -/
theorem buildMatchers_eq_map (terms : List (List Char)) (asRegex ignoreCase : Bool)
    (batchSize : Nat) (hne : ∀ t ∈ terms, t ≠ []) :
    buildMatchers terms asRegex ignoreCase batchSize =
      (chunk batchSize terms).map fun c => ⟨c, ignoreCase⟩ := by
  rw [buildMatchers]
  apply filterMap_eq_map_of_some
  intro c hc
  have hsub : ∀ a ∈ c, a ∈ terms := chunkAux_subset batchSize terms.length terms c hc
  have hcne : c ≠ [] := (chunkAux_mem batchSize terms.length terms c hc).2
  have hfil : c.filter (fun s => !s.isEmpty) = c := by
    apply List.filter_eq_self.mpr
    intro a ha
    simp [List.isEmpty_iff, hne a (hsub a ha)]
  show (if (c.filter fun s => !s.isEmpty).isEmpty then none
      else some (⟨c.filter fun s => !s.isEmpty, ignoreCase⟩ : LitBatch)) =
    some (⟨c, ignoreCase⟩ : LitBatch)
  rw [hfil, if_neg (by simp [List.isEmpty_iff, hcne])]

/-- C1 counterexample: in variant 3, a reload attempt whose read fails
does not leave the active snapshot unchanged — the previous good snapshot
(one batch, one term) is replaced by the empty state. -/
theorem c1_counterexample :
    loadDict3 ⟨false, true, 400⟩ ⟨[⟨[['a']], true⟩], 1⟩ .failure ≠
      ⟨[⟨[['a']], true⟩], 1⟩ := by
  decide

/-- C1 (amended): in variant 1 a failed reload leaves the active snapshot
unchanged (the read throws before the module state is assigned and the
watcher catches the exception), but in variant 3 a failed or missing read
resets the matcher state to the empty snapshot, losing the previous good
snapshot. -/
theorem c1_failed_reload (st1 : Snapshot) (cfg : Config3) (st3 : State3) :
    reload1 st1 .failure = st1 ∧ reload1 st1 .missing = st1 ∧
    loadDict3 cfg st3 .failure = ⟨[], 0⟩ ∧ loadDict3 cfg st3 .missing = ⟨[], 0⟩ :=
  ⟨rfl, rfl, rfl, rfl⟩

/-- C2 counterexample: with the dictionary consisting of the single plain
term `spam` and the text `SPAM`, the hit-test fires through the
case-insensitive batch pattern while the case-sensitive match collection
returns no entry. -/
theorem c2_counterexample :
    isHit (loadDict1 "spam".toList) "SPAM".toList = true ∧
    collectMatches (loadDict1 "spam".toList) "SPAM".toList = [] := by
  decide

/-- C2 (amended): batch patterns are compiled case-insensitively while
plain-term collection uses case-sensitive containment, so a batch hit
guarantees a non-empty collection only when the plain terms and the text
are already case-folded (fixed under lowercasing). -/
theorem c2_casefolded_hit_collect (content text : List Char)
    (hterms : ∀ w ∈ (loadDict1 content).plainTerms, w.map Char.toLower = w)
    (htext : text.map Char.toLower = text)
    (hbatch : ∃ b ∈ (loadDict1 content).regexBatches, b.test text = true) :
    collectMatches (loadDict1 content) text ≠ [] := by
  rcases hbatch with ⟨b, hb, htest⟩
  rw [LitBatch.test] at htest
  rcases List.any_eq_true.mp htest with ⟨w, hwb, hw⟩
  have hmem := mem_plain_of_mem_batch hb hwb
  rw [hmem.2, if_pos rfl] at hw
  rw [hterms w hmem.1, htext] at hw
  intro hnil
  have hwmem : w ∈ (loadDict1 content).plainTerms.filter
      (fun v => !v.isEmpty && containsSub v text) := by
    apply List.mem_filter.mpr
    refine ⟨hmem.1, ?_⟩
    simp [hw, List.isEmpty_iff, loadDict1_plain_ne hmem.1]
  rw [collectMatches] at hnil
  rcases List.append_eq_nil.mp hnil with ⟨h1, h2⟩
  rw [h1] at hwmem
  simp at hwmem

/-- C2 witness: for the lowercase dictionary `spam` and lowercase text
`xspam`, the amended statement applies and the collection is
non-empty. -/
theorem c2_casefolded_hit_collect_witness :
    (∀ w ∈ (loadDict1 "spam".toList).plainTerms, w.map Char.toLower = w) ∧
    "xspam".toList.map Char.toLower = "xspam".toList ∧
    (∃ b ∈ (loadDict1 "spam".toList).regexBatches, b.test "xspam".toList = true) ∧
    collectMatches (loadDict1 "spam".toList) "xspam".toList ≠ [] :=
  ⟨by decide, by decide, by decide,
    c2_casefolded_hit_collect "spam".toList "xspam".toList (by decide) (by decide) (by decide)⟩

/-- C3: with a cap of at least 1, the reported match list has at most
`cap` entries, and the untruncated total exceeds the reported length
exactly when the cap is exceeded, equivalently exactly when matches were
dropped from the report. -/
theorem c3_cap_truncation (s : Snapshot) (text : List Char) (cap : Nat) (hcap : 1 ≤ cap) :
    (shownMatches s text cap).length ≤ cap ∧
    ((shownMatches s text cap).length < (collectMatches s text).length ↔
      cap < (collectMatches s text).length) ∧
    ((shownMatches s text cap).length < (collectMatches s text).length ↔
      shownMatches s text cap ≠ collectMatches s text) := by
  have heff : effCap cap = cap := by
    rw [effCap, if_neg (by simp; omega)]
    exact Nat.max_eq_right hcap
  simp only [shownMatches, heff, List.length_take]
  refine ⟨by omega, by omega, ?_⟩
  constructor
  · intro h heq
    have hlen := congrArg List.length heq
    simp only [List.length_take] at hlen
    omega
  · intro h
    rcases Nat.lt_or_ge cap (collectMatches s text).length with hlt | hge
    · omega
    · exact absurd (List.take_of_length_le hge) h

/-- C3 witness: three one-letter terms all match `abc`; with cap 2 the
report is truncated and the truncation is detectable. -/
theorem c3_cap_truncation_witness :
    1 ≤ 2 ∧
    ((shownMatches (loadDict1 "a\nb\nc".toList) "abc".toList 2).length ≤ 2 ∧
      ((shownMatches (loadDict1 "a\nb\nc".toList) "abc".toList 2).length <
          (collectMatches (loadDict1 "a\nb\nc".toList) "abc".toList).length ↔
        2 < (collectMatches (loadDict1 "a\nb\nc".toList) "abc".toList).length) ∧
      ((shownMatches (loadDict1 "a\nb\nc".toList) "abc".toList 2).length <
          (collectMatches (loadDict1 "a\nb\nc".toList) "abc".toList).length ↔
        shownMatches (loadDict1 "a\nb\nc".toList) "abc".toList 2 ≠
          collectMatches (loadDict1 "a\nb\nc".toList) "abc".toList)) :=
  ⟨by decide, c3_cap_truncation (loadDict1 "a\nb\nc".toList) "abc".toList 2 (by decide)⟩

/-- C4: the four-line dictionary yields exactly the two plain terms and
one case-insensitive regex term with the comment skipped, and line
classification follows blank-skip, comment-skip, delimited-regex (with
empty flags defaulting to `i`), plain. -/
theorem c4_parse_scenario :
    (loadDict1 "赌博\n/fu+ck/i\n# comment\nspam".toList).plainTerms =
      ["赌博".toList, "spam".toList] ∧
    (loadDict1 "赌博\n/fu+ck/i\n# comment\nspam".toList).regexTerms.map
      (fun r => (r.source, r.flags)) = [("fu+ck".toList, ['i'])] ∧
    (loadDict1 "赌博\n/fu+ck/i\n# comment\nspam".toList).warnings = [] ∧
    parseLine1 "  ".toList = .skip ∧
    parseLine1 "# comment".toList = .skip ∧
    parseLine1 "/ab/".toList = .regexSrc "/ab/".toList "ab".toList ['i'] ∧
    parseLine1 "spam".toList = .plain "spam".toList := by
  decide

/-- C5: one syntactically invalid regex line among nine valid plain lines
drops only itself: nine plain terms load, no regex term loads, and exactly
one warning is recorded for the offending line. -/
theorem c5_invalid_regex_line :
    (loadDict1 "w1\nw2\nw3\nw4\n/(/i\nw5\nw6\nw7\nw8\nw9".toList).plainTerms =
      ["w1".toList, "w2".toList, "w3".toList, "w4".toList, "w5".toList,
        "w6".toList, "w7".toList, "w8".toList, "w9".toList] ∧
    (loadDict1 "w1\nw2\nw3\nw4\n/(/i\nw5\nw6\nw7\nw8\nw9".toList).regexTerms = [] ∧
    (loadDict1 "w1\nw2\nw3\nw4\n/(/i\nw5\nw6\nw7\nw8\nw9".toList).warnings =
      ["/(/i".toList] := by
  decide

/-- C6: for any batch size of at least 1 and non-empty plain terms, the
literal batcher partitions the terms: the batches concatenate back to the
term sequence in parse order (so every term is in exactly one batch and
batches are contiguous slices), every batch holds at most `batchSize`
terms, and no batch is empty. -/
theorem c6_batch_partition (terms : List (List Char)) (asRegex ignoreCase : Bool)
    (batchSize : Nat) (hbs : 1 ≤ batchSize) (hne : ∀ t ∈ terms, t ≠ []) :
    ((buildMatchers terms asRegex ignoreCase batchSize).map LitBatch.terms).flatten = terms ∧
    ∀ b ∈ buildMatchers terms asRegex ignoreCase batchSize,
      b.terms.length ≤ batchSize ∧ b.terms ≠ [] := by
  rw [buildMatchers_eq_map terms asRegex ignoreCase batchSize hne]
  constructor
  · rw [List.map_map]
    have : (LitBatch.terms ∘ fun c => (⟨c, ignoreCase⟩ : LitBatch)) = id := rfl
    rw [this, List.map_id]
    exact chunk_flatten batchSize (by omega) terms
  · intro b hb
    rcases List.mem_map.mp hb with ⟨c, hc, rfl⟩
    exact chunkAux_mem batchSize terms.length terms c hc

/-- C6 witness: three one-letter terms with batch size 2 split into a
two-term batch and a one-term batch. -/
theorem c6_batch_partition_witness :
    (1 ≤ 2 ∧ ∀ t ∈ [['a'], ['b'], ['c']], t ≠ ([] : List Char)) ∧
    ((((buildMatchers [['a'], ['b'], ['c']] false true 2).map LitBatch.terms).flatten =
        [['a'], ['b'], ['c']]) ∧
      ∀ b ∈ buildMatchers [['a'], ['b'], ['c']] false true 2,
        b.terms.length ≤ 2 ∧ b.terms ≠ []) :=
  ⟨⟨by decide, by decide⟩,
    c6_batch_partition [['a'], ['b'], ['c']] false true 2 (by decide) (by decide)⟩

/-- C7 counterexample: with 2001 terms and a configured batch size of
100000, the batcher emits a single batch holding all 2001 terms — more
than the documented maximum of 2000 — so no clamping to the maximum takes
place. -/
theorem c7_counterexample :
    ∃ b ∈ buildMatchers (List.replicate 2001 ['a']) false true 100000,
      2000 < b.terms.length := by
  have hne : ∀ t ∈ List.replicate 2001 (['a'] : List Char), t ≠ [] := by
    intro t ht
    rw [List.eq_of_mem_replicate ht]
    simp
  rw [buildMatchers_eq_map _ false true 100000 hne]
  have hrepne : List.replicate 2001 (['a'] : List Char) ≠ [] := by
    intro hnil
    have h2001 := congrArg List.length hnil
    rw [List.length_replicate, List.length_nil] at h2001
    omega
  have hchunk : chunk 100000 (List.replicate 2001 (['a'] : List Char)) =
      [List.replicate 2001 ['a']] := by
    rw [chunk]
    apply chunkAux_single
    · exact hrepne
    · rw [List.length_replicate]; omega
    · rw [List.length_replicate]; omega
  rw [hchunk, List.map_cons, List.map_nil]
  refine ⟨⟨List.replicate 2001 ['a'], true⟩, List.mem_singleton.mpr rfl, ?_⟩
  show 2000 < (List.replicate 2001 (['a'] : List Char)).length
  rw [List.length_replicate]
  omega

/-- C7 (amended): the configured batch size is used directly, with no
clamping: batch size 1 produces one batch per plain term, and batch size
100000 produces a single batch holding every term whenever there are at
most 100000 of them. -/
theorem c7_no_clamp (terms : List (List Char)) (asRegex ignoreCase : Bool)
    (hne : ∀ t ∈ terms, t ≠ []) :
    buildMatchers terms asRegex ignoreCase 1 =
      terms.map (fun t => ⟨[t], ignoreCase⟩) ∧
    (terms ≠ [] → terms.length ≤ 100000 →
      buildMatchers terms asRegex ignoreCase 100000 = [⟨terms, ignoreCase⟩]) := by
  constructor
  · rw [buildMatchers_eq_map terms asRegex ignoreCase 1 hne, chunk,
      chunkAux_one terms.length terms (Nat.le_refl _), List.map_map]
    rfl
  · intro hnil hlen
    rw [buildMatchers_eq_map terms asRegex ignoreCase 100000 hne, chunk,
      chunkAux_single terms.length 100000 terms hnil hlen (List.length_pos.mpr hnil)]
    rfl

/-- C7 witness: two one-letter terms give one batch per term at batch size
1 and a single two-term batch at batch size 100000. -/
theorem c7_no_clamp_witness :
    (∀ t ∈ [['a'], ['b']], t ≠ ([] : List Char)) ∧
    (buildMatchers [['a'], ['b']] false true 1 =
        [['a'], ['b']].map (fun t => ⟨[t], true⟩) ∧
      ([['a'], ['b']] ≠ ([] : List (List Char)) → [['a'], ['b']].length ≤ 100000 →
        buildMatchers [['a'], ['b']] false true 100000 = [⟨[['a'], ['b']], true⟩])) :=
  ⟨by decide, c7_no_clamp [['a'], ['b']] false true (by decide)⟩

/-- C8 counterexample: variant 1 `isHit` has no empty-text guard — loading
the dictionary line `/x*/` (a regex matching the empty string) makes the
hit-test return true on the empty text, not false. -/
theorem c8_counterexample : isHit (loadDict1 "/x*/".toList) [] = true := by
  decide

/-- C8 (amended): variant 3 `testHit` returns false on empty text and on
an empty pattern list; variant 1 `isHit` returns false for an empty
dictionary and is true exactly when some batch pattern or some regex term
matches, but carries no empty-text guard of its own. -/
theorem c8_hit_semantics (regs : List LitBatch) (text : List Char) (s : Snapshot) :
    testHit [] regs = false ∧
    testHit text [] = false ∧
    ((s.regexBatches = [] ∧ s.regexTerms = []) → isHit s text = false) ∧
    (isHit s text = true ↔
      (∃ b ∈ s.regexBatches, b.test text = true) ∨
        (∃ r ∈ s.regexTerms, r.test text = true)) := by
  refine ⟨rfl, ?_, ?_, ?_⟩
  · cases text <;> rfl
  · rintro ⟨h1, h2⟩
    rw [isHit, h1, h2]
    rfl
  · rw [isHit]
    simp

/-- C8 witness: the amended statement instantiated at a one-batch pattern
list, the text `b`, and the snapshot loaded from an empty dictionary
source. -/
theorem c8_hit_semantics_witness :
    testHit [] [⟨[['a']], true⟩] = false ∧
    testHit ['b'] [] = false ∧
    (((loadDict1 []).regexBatches = [] ∧ (loadDict1 []).regexTerms = []) →
      isHit (loadDict1 []) ['b'] = false) ∧
    (isHit (loadDict1 []) ['b'] = true ↔
      (∃ b ∈ (loadDict1 []).regexBatches, b.test ['b'] = true) ∨
        (∃ r ∈ (loadDict1 []).regexTerms, r.test ['b'] = true)) :=
  c8_hit_semantics [⟨[['a']], true⟩] ['b'] (loadDict1 [])

/-- C9: loading is deterministic in the file content — two loads of the
same content, regardless of the clock readings feeding the log line,
produce equal snapshots with equal term, regex and batch counts and
identical hit and collection behaviour on every text. -/
theorem c9_reload_deterministic (content : List Char) (t0 t1 t2 t3 : Nat) :
    (loadDict1Timed content t0 t1).1 = (loadDict1Timed content t2 t3).1 ∧
    (loadDict1Timed content t0 t1).1.plainTerms.length =
      (loadDict1Timed content t2 t3).1.plainTerms.length ∧
    (loadDict1Timed content t0 t1).1.regexTerms.length =
      (loadDict1Timed content t2 t3).1.regexTerms.length ∧
    (loadDict1Timed content t0 t1).1.regexBatches.length =
      (loadDict1Timed content t2 t3).1.regexBatches.length ∧
    ∀ text : List Char,
      isHit (loadDict1Timed content t0 t1).1 text =
        isHit (loadDict1Timed content t2 t3).1 text ∧
      collectMatches (loadDict1Timed content t0 t1).1 text =
        collectMatches (loadDict1Timed content t2 t3).1 text :=
  ⟨rfl, rfl, rfl, rfl, fun _ => ⟨rfl, rfl⟩⟩

/-- C10: match collection is sound with respect to the hit-test — for any
loaded variant 1 dictionary, a non-empty collection forces the hit-test to
fire, because every plain term sits in a case-insensitive batch pattern
and the regex terms are tested identically on both paths. -/
theorem c10_collect_implies_hit (content text : List Char)
    (h : collectMatches (loadDict1 content) text ≠ []) :
    isHit (loadDict1 content) text = true := by
  cases hhit : isHit (loadDict1 content) text with
  | true => rfl
  | false =>
    exfalso
    apply h
    rw [isHit, Bool.or_eq_false_iff] at hhit
    obtain ⟨hbat, hreg⟩ := hhit
    rw [List.any_eq_false] at hbat
    rw [List.any_eq_false] at hreg
    have hplain : (loadDict1 content).plainTerms.filter
        (fun w => !w.isEmpty && containsSub w text) = [] := by
      rw [List.filter_eq_nil_iff]
      intro w hw hpw
      rw [Bool.and_eq_true] at hpw
      have hinf : w <:+: text := (containsSub_iff w text).mp hpw.2
      rcases mem_batch_of_mem_plain hw with ⟨b, hb, hwb, hic⟩
      apply hbat b hb
      rw [LitBatch.test]
      apply List.any_eq_true.mpr
      refine ⟨w, hwb, ?_⟩
      rw [hic, if_pos rfl]
      exact (containsSub_iff _ _).mpr (infix_map_toLower hinf)
    have hregex : (loadDict1 content).regexTerms.filter (fun r => r.test text) = [] := by
      rw [List.filter_eq_nil_iff]
      intro r hr hp
      exact hreg r hr hp
    rw [collectMatches, hplain, hregex]
    rfl

/-- C10 witness: the term `spam` occurs in `a spam b`, so the collection
is non-empty and the hit-test fires. -/
theorem c10_collect_implies_hit_witness :
    collectMatches (loadDict1 "spam".toList) "a spam b".toList ≠ [] ∧
    isHit (loadDict1 "spam".toList) "a spam b".toList = true :=
  ⟨by decide, c10_collect_implies_hit "spam".toList "a spam b".toList (by decide)⟩

end BanWords
